import Mathlib

/-!
Verification of the `mysql_async` core specification against a shallow
embedding of the crate.  The crate root (`src/lib.rs`) re-exports the
implementation modules; the protocol, pool and connection machinery that
the spec describes is modelled here from the specification text, while
`test_misc` (which lives in `src/lib.rs` itself) is embedded directly.
-/

namespace MysqlAsync

/-! ## Packet codec (spec §3 "Packet", §4.C) -/

/-- Maximal payload carried by a single MySQL frame: `2^24 - 1` bytes.
A frame of exactly this length tells the reader that the payload
continues in the next frame. -/
def maxPayload : Nat := 2 ^ 24 - 1

/-- Modelled from the spec: the packet writer of the codec (`src/io`, not
under `src/`).  It splits a payload into successive frames of at most
`maxPayload` bytes; every frame but the last has exactly `maxPayload`
bytes and the last is strictly shorter (a zero-length final frame when
the payload length is an exact multiple of `maxPayload`).  Each frame is
tagged with a sequence id, starting at `base` and incremented by one per
frame, modulo 256.  Bytes are modelled as `Nat`. -/
def writePackets (base : Nat) (p : List Nat) : List (Nat × List Nat) :=
  if p.length < maxPayload then
    [(base % 256, p)]
  else
    (base % 256, p.take maxPayload) :: writePackets (base + 1) (p.drop maxPayload)
  termination_by p.length
  decreasing_by
    simp only [List.length_drop]
    have hmax : 0 < maxPayload := by decide
    omega

/-- Modelled from the spec: the packet reader of the codec.  It reads one
frame; if the frame has length `2^24 - 1` it keeps reading frames and
concatenates until a frame of smaller length is received (which is
included).  Returns `none` on a truncated stream. -/
def readPacket : List (Nat × List Nat) → Option (List Nat)
  | [] => none
  | (_, c) :: rest =>
    if c.length = maxPayload then
      (readPacket rest).map (fun q => c ++ q)
    else
      some c

theorem writePackets_ne_nil (base : Nat) (p : List Nat) :
    writePackets base p ≠ [] := by
  rw [writePackets]
  split <;> simp

/-- The payload carried by the frames, concatenated back by the reader,
is the original payload. -/
theorem readPacket_writePackets (base : Nat) (p : List Nat) :
    readPacket (writePackets base p) = some p := by
  rw [writePackets]
  split
  · rename_i h
    have hne : p.length ≠ maxPayload := Nat.ne_of_lt h
    simp [readPacket, hne]
  · rename_i h
    have hlen : (p.take maxPayload).length = maxPayload := by
      simp only [List.length_take]
      omega
    have ih := readPacket_writePackets (base + 1) (p.drop maxPayload)
    simp [readPacket, hlen, ih, List.take_append_drop]
  termination_by p.length
  decreasing_by
    simp only [List.length_drop]
    have hmax : 0 < maxPayload := by decide
    omega

/-- The emitted sequence ids are `base, base+1, ...` reduced modulo 256. -/
theorem writePackets_seqIds (base : Nat) (p : List Nat) :
    (writePackets base p).map Prod.fst =
      (List.range' base (writePackets base p).length).map (fun s => s % 256) := by
  rw [writePackets]
  split
  · simp
  · have ih := writePackets_seqIds (base + 1) (p.drop maxPayload)
    simp only [List.map_cons, List.length_cons, List.range'_succ, ih]
  termination_by p.length
  decreasing_by
    simp only [List.length_drop]
    have hmax : 0 < maxPayload := by decide
    omega

/-- **C1**: for every payload `P` of length at most `2^32 - 1`, encoding
`P` into MySQL packet frames and then decoding the resulting frame
sequence yields exactly `P`, and the emitted frames carry contiguous
sequence ids starting at the configured base, incrementing by one per
frame, modulo 256. -/
theorem framing_round_trip (base : Nat) (p : List Nat)
    (_h : p.length ≤ 2 ^ 32 - 1) :
    readPacket (writePackets base p) = some p ∧
    (writePackets base p).map Prod.fst =
      (List.range' base (writePackets base p).length).map (fun s => s % 256) :=
  ⟨readPacket_writePackets base p, writePackets_seqIds base p⟩

/-- Witness for C1 at a concrete payload and base. -/
theorem framing_round_trip_witness :
    readPacket (writePackets 5 [1, 2, 3]) = some [1, 2, 3] :=
  (framing_round_trip 5 [1, 2, 3] (by decide)).1

/-- The last emitted frame carries exactly `p.length % maxPayload`
payload bytes. -/
theorem writePackets_getLast (base : Nat) (p : List Nat) :
    ∃ s q, (writePackets base p).getLast? = some (s, q) ∧
      q.length = p.length % maxPayload := by
  rw [writePackets]
  split
  · rename_i h
    exact ⟨base % 256, p, by simp, (Nat.mod_eq_of_lt h).symm⟩
  · rename_i h
    obtain ⟨s, q, hlast, hlen⟩ := writePackets_getLast (base + 1) (p.drop maxPayload)
    refine ⟨s, q, ?_, ?_⟩
    · rw [List.getLast?_cons, hlast]
      simp [writePackets_ne_nil]
    · rw [hlen, List.length_drop, ← Nat.mod_eq_sub_mod (by omega)]
  termination_by p.length
  decreasing_by
    simp only [List.length_drop]
    have hmax : 0 < maxPayload := by decide
    omega

/-- **C2**: a payload of length exactly `2^24 - 1` is emitted as exactly
two frames, the first of length `2^24 - 1` and the second of length
zero; in general the last emitted frame is strictly shorter than
`2^24 - 1` bytes, and it has length zero exactly when the payload length
is a multiple of `2^24 - 1`. -/
theorem split_boundary (base : Nat) (p : List Nat) :
    (p.length = maxPayload →
      writePackets base p = [(base % 256, p), ((base + 1) % 256, [])]) ∧
    ∃ s q, (writePackets base p).getLast? = some (s, q) ∧
      q.length < maxPayload ∧
      (p.length % maxPayload = 0 → q = []) := by
  constructor
  · intro h
    rw [writePackets]
    have hnlt : ¬ p.length < maxPayload := by omega
    rw [if_neg hnlt, List.take_of_length_le (by omega)]
    have hdrop : p.drop maxPayload = [] := List.drop_eq_nil_of_le (by omega)
    rw [hdrop, writePackets, if_pos (by decide : ([] : List Nat).length < maxPayload)]
  · obtain ⟨s, q, hlast, hlen⟩ := writePackets_getLast base p
    refine ⟨s, q, hlast, ?_, ?_⟩
    · rw [hlen]
      exact Nat.mod_lt _ (by decide)
    · intro h0
      rw [h0] at hlen
      exact List.eq_nil_of_length_eq_zero hlen

/-- Witness for C2: the boundary payload of `2^24 - 1` bytes is split
into a full frame followed by an empty frame. -/
theorem split_boundary_witness :
    writePackets 0 (List.replicate maxPayload 0) =
      [(0 % 256, List.replicate maxPayload 0), ((0 + 1) % 256, [])] :=
  (split_boundary 0 (List.replicate maxPayload 0)).1 (by simp)

/-! ## Capability negotiation (spec §3 "Capabilities", §4.D step 2) -/

/-- Standard MySQL capability bit: long-password. -/
def CLIENT_LONG_PASSWORD : Nat := 1
/-- Standard MySQL capability bit: compression. -/
def CLIENT_COMPRESS : Nat := 32
/-- Standard MySQL capability bit: LOCAL INFILE. -/
def CLIENT_LOCAL_FILES : Nat := 128
/-- Standard MySQL capability bit: protocol 4.1. -/
def CLIENT_PROTOCOL_41 : Nat := 512
/-- Standard MySQL capability bit: SSL. -/
def CLIENT_SSL : Nat := 2048
/-- Standard MySQL capability bit: transactions. -/
def CLIENT_TRANSACTIONS : Nat := 8192
/-- Standard MySQL capability bit: secure connection. -/
def CLIENT_SECURE_CONNECTION : Nat := 32768
/-- Standard MySQL capability bit: multi-results. -/
def CLIENT_MULTI_RESULTS : Nat := 2 ^ 17
/-- Standard MySQL capability bit: plugin auth. -/
def CLIENT_PLUGIN_AUTH : Nat := 2 ^ 19
/-- Standard MySQL capability bit: session-state tracking. -/
def CLIENT_SESSION_TRACK : Nat := 2 ^ 23
/-- Standard MySQL capability bit: deprecate EOF. -/
def CLIENT_DEPRECATE_EOF : Nat := 2 ^ 24

/-- The user options that influence the offered capability set. -/
structure ClientOpts where
  compression : Bool
  ssl : Bool
  localInfile : Bool

/-- Modelled from the spec: the capability set the client offers,
computed from user options (the handshake code lives outside `src/`).
Always-wanted bits plus option-dependent compression, SSL and LOCAL
INFILE bits. -/
def clientWanted (o : ClientOpts) : Nat :=
  CLIENT_LONG_PASSWORD ||| CLIENT_PROTOCOL_41 ||| CLIENT_PLUGIN_AUTH |||
  CLIENT_TRANSACTIONS ||| CLIENT_SECURE_CONNECTION ||| CLIENT_MULTI_RESULTS |||
  CLIENT_SESSION_TRACK ||| CLIENT_DEPRECATE_EOF |||
  (if o.compression then CLIENT_COMPRESS else 0) |||
  (if o.ssl then CLIENT_SSL else 0) |||
  (if o.localInfile then CLIENT_LOCAL_FILES else 0)

/-- Modelled from the spec: capability negotiation intersects the
client-wanted set with the server-advertised bits. -/
def negotiate (o : ClientOpts) (server : Nat) : Nat :=
  clientWanted o &&& server

/-- **C3**: the capability bitmask the connection operates with after the
handshake is exactly the intersection of the client-wanted set and the
server-advertised set: a bit is set in the negotiated mask iff it is set
in both inputs. -/
theorem capability_intersection (o : ClientOpts) (server i : Nat) :
    (negotiate o server).testBit i = true ↔
      ((clientWanted o).testBit i = true ∧ server.testBit i = true) := by
  simp [negotiate, Nat.testBit_land]

/-- Witness for C3 at concrete options, server mask and bit index. -/
theorem capability_intersection_witness :
    (negotiate ⟨true, false, true⟩ 33).testBit 5 = true ↔
      ((clientWanted ⟨true, false, true⟩).testBit 5 = true ∧
        (33 : Nat).testBit 5 = true) :=
  capability_intersection ⟨true, false, true⟩ 33 5

/-! ## Connection pool accounting (spec §3 "Pool", §4.I) -/

/-- The pool bookkeeping state: idle connections (with their last-used
ages), the number of checked-out connections, the number of pending
waiters, and the closed flag. -/
structure PoolState where
  idle : List Nat
  inUse : Nat
  waiters : Nat
  closed : Bool

/-- Modelled from the spec: one pool operation step (the pool lives in
`conn/pool`, not under `src/`).  The cases follow the `get_conn`,
return/checkin, TTL-reaper and `disconnect` algorithms of spec §4.I. -/
inductive PoolStep (max : Nat) : PoolState → PoolState → Prop
  /-- `get_conn` on a closed pool fails with `PoolDisconnected`;
  the state is unchanged. -/
  | getClosed (s : PoolState) (h : s.closed = true) : PoolStep max s s
  /-- `get_conn` pops a healthy idle connection and hands it out. -/
  | getIdleHand (a : Nat) (rest : List Nat) (u w : Nat) (c : Bool) :
      PoolStep max ⟨a :: rest, u, w, c⟩ ⟨rest, u + 1, w, c⟩
  /-- `get_conn` pops an expired or dead idle connection and discards
  it, then retries (the retry is a further step). -/
  | getIdleDiscard (a : Nat) (rest : List Nat) (u w : Nat) (c : Bool) :
      PoolStep max ⟨a :: rest, u, w, c⟩ ⟨rest, u, w, c⟩
  /-- `get_conn` with no idle connection and `inUse < max` creates a
  fresh connection and hands it out. -/
  | getNew (u w : Nat) (c : Bool) (h : u < max) :
      PoolStep max ⟨[], u, w, c⟩ ⟨[], u + 1, w, c⟩
  /-- `get_conn` with no idle connection and the pool at capacity
  registers a waiter. -/
  | getWait (u w : Nat) (c : Bool) (h : ¬ u < max) :
      PoolStep max ⟨[], u, w, c⟩ ⟨[], u, w + 1, c⟩
  /-- Checkin of a broken or dirty connection with no waiter: discard
  and decrement `inUse`. -/
  | checkinDiscard (i : List Nat) (u w : Nat) (c : Bool) :
      PoolStep max ⟨i, u + 1, w, c⟩ ⟨i, u, w, c⟩
  /-- Checkin of a broken or dirty connection while a waiter exists:
  discard and honor the head waiter with a fresh connect (`inUse` is
  unchanged on balance). -/
  | checkinDiscardRefresh (i : List Nat) (u w : Nat) (c : Bool) :
      PoolStep max ⟨i, u + 1, w + 1, c⟩ ⟨i, u + 1, w, c⟩
  /-- Checkin of a clean connection while a waiter exists: hand it
  directly to the head waiter, bypassing the idle queue. -/
  | checkinHandToWaiter (i : List Nat) (u w : Nat) (c : Bool) :
      PoolStep max ⟨i, u + 1, w + 1, c⟩ ⟨i, u + 1, w, c⟩
  /-- Checkin of a clean connection with no waiter: push it on the idle
  queue with a fresh age. -/
  | checkinIdle (a : Nat) (i : List Nat) (u : Nat) (c : Bool) :
      PoolStep max ⟨i, u + 1, 0, c⟩ ⟨a :: i, u, 0, c⟩
  /-- The TTL reaper retires one idle connection. -/
  | reap (a : Nat) (rest : List Nat) (u w : Nat) (c : Bool) :
      PoolStep max ⟨a :: rest, u, w, c⟩ ⟨rest, u, w, c⟩
  /-- `disconnect`: flip the closed flag, wake all waiters with an error
  and drain the idle queue. -/
  | disconnect (s : PoolState) :
      PoolStep max s ⟨[], s.inUse, 0, true⟩

/-- Pool states reachable from the freshly created (empty, open) pool by
pool operations. -/
inductive PoolReachable (max : Nat) : PoolState → Prop
  | init : PoolReachable max ⟨[], 0, 0, false⟩
  | step (s s' : PoolState) (hr : PoolReachable max s)
      (hs : PoolStep max s s') : PoolReachable max s'

/-- A single pool operation preserves `idle + inUse ≤ max`. -/
theorem poolStep_preserves_cap (max : Nat) (s s' : PoolState)
    (hs : PoolStep max s s') (h : s.idle.length + s.inUse ≤ max) :
    s'.idle.length + s'.inUse ≤ max := by
  cases hs <;> simp_all <;> omega

/-- **C4**: in every reachable pool state — hence after every pool
operation (`get_conn`, checkin, fresh connect, TTL reaping,
`disconnect`) — the number of idle connections plus the number of
checked-out connections is at most the configured `max`, and in
particular at most `max` connections are checked out at once. -/
theorem pool_cap (max : Nat) (s : PoolState) (h : PoolReachable max s) :
    s.idle.length + s.inUse ≤ max ∧ s.inUse ≤ max := by
  have hcap : s.idle.length + s.inUse ≤ max := by
    induction h with
    | init => simp
    | step t t' _ hs ih => exact poolStep_preserves_cap max t t' hs ih
  exact ⟨hcap, by omega⟩

/-- Witness for C4: a concrete reachable state of a pool with `max = 2`
(one fresh connection handed out, then checked back in). -/
theorem pool_cap_witness :
    (⟨[7], 0, 0, false⟩ : PoolState).idle.length +
        (⟨[7], 0, 0, false⟩ : PoolState).inUse ≤ 2 ∧
      (⟨[7], 0, 0, false⟩ : PoolState).inUse ≤ 2 :=
  pool_cap 2 ⟨[7], 0, 0, false⟩
    (PoolReachable.step _ _
      (PoolReachable.step _ _ PoolReachable.init
        (PoolStep.getNew 0 0 false (by decide)))
      (PoolStep.checkinIdle 7 [] 0 false))

/-! ## Prepared-statement cache (spec §3 "Prepared statement handle",
§4.E) -/

/-- The per-connection statement cache: a bounded LRU list of
(query-hash, server statement id) pairs, most recently used first. -/
abbrev StmtCache := List (Nat × Nat)

/-- Modelled from the spec: inserting a freshly prepared statement into
the LRU cache (the cache lives in `conn`, not under `src/`).  The new
entry goes to the front; any entries beyond `cap` are evicted, and a
`COM_STMT_CLOSE` is issued for each evicted statement id (second
component of the result) before the handle is dropped. -/
def cachePut (cap : Nat) (c : StmtCache) (k v : Nat) :
    StmtCache × List Nat :=
  let c' : List (Nat × Nat) := (k, v) :: c
  (c'.take cap, (c'.drop cap).map Prod.snd)

/-- Modelled from the spec: a cache hit moves the entry to the front of
the LRU order; nothing is evicted. -/
def cacheGet (c : StmtCache) (k : Nat) : StmtCache :=
  match c.find? (fun e => e.1 == k) with
  | none => c
  | some e => e :: c.eraseP (fun e => e.1 == k)

/-- Modelled from the spec: connection reset evicts every cached
statement, closing each on the server. -/
def cacheReset (c : StmtCache) : StmtCache × List Nat :=
  ([], c.map Prod.snd)

/-- `cacheGet` never grows the cache. -/
theorem cacheGet_length_le (c : StmtCache) (k : Nat) :
    (cacheGet c k).length ≤ c.length := by
  unfold cacheGet
  cases hf : c.find? (fun e => e.1 == k) with
  | none => exact Nat.le_refl _
  | some e =>
    have hx : (c.eraseP (fun e => e.1 == k)).length + 1 = c.length := by
      have hpe := List.find?_some hf
      exact List.length_eraseP_add_one (List.mem_of_find?_eq_some hf) hpe
    simp only [List.length_cons]
    omega

/-- **C5**: after any cache operation the per-connection statement cache
holds at most `cap = stmt_cache_size` entries, and every entry of the
previous cache either survives the operation or has its statement id
listed among the issued `COM_STMT_CLOSE` commands (so an evicted
statement is closed on the server before its handle is dropped). -/
theorem stmt_cache_bound (cap : Nat) (c : StmtCache) (k v : Nat)
    (hsz : c.length ≤ cap) :
    (cachePut cap c k v).1.length ≤ cap ∧
    (∀ e ∈ c, e ∈ (cachePut cap c k v).1 ∨
      e.2 ∈ (cachePut cap c k v).2) ∧
    (cacheGet c k).length ≤ cap ∧
    (cacheReset c).1.length ≤ cap ∧
    (∀ e ∈ c, e.2 ∈ (cacheReset c).2) := by
  refine ⟨?_, ?_, ?_, ?_, ?_⟩
  · simp [cachePut]
  · intro e he
    have hmem : e ∈ ((k, v) :: c) := List.mem_cons_of_mem _ he
    rw [← List.take_append_drop cap ((k, v) :: c)] at hmem
    rcases List.mem_append.mp hmem with h | h
    · exact Or.inl h
    · exact Or.inr (by simpa [cachePut] using List.mem_map_of_mem Prod.snd h)
  · exact Nat.le_trans (cacheGet_length_le c k) hsz
  · simp [cacheReset]
  · intro e he
    simpa [cacheReset] using List.mem_map_of_mem Prod.snd he

/-- Witness for C5: a full cache of capacity 2 receiving a third
statement. -/
theorem stmt_cache_bound_witness :
    (cachePut 2 [(1, 10), (2, 20)] 3 30).1.length ≤ 2 ∧
    (∀ e ∈ ([(1, 10), (2, 20)] : StmtCache),
      e ∈ (cachePut 2 [(1, 10), (2, 20)] 3 30).1 ∨
        e.2 ∈ (cachePut 2 [(1, 10), (2, 20)] 3 30).2) ∧
    (cacheGet [(1, 10), (2, 20)] 3).length ≤ 2 ∧
    (cacheReset [(1, 10), (2, 20)]).1.length ≤ 2 ∧
    (∀ e ∈ ([(1, 10), (2, 20)] : StmtCache),
      e.2 ∈ (cacheReset [(1, 10), (2, 20)]).2) :=
  stmt_cache_bound 2 [(1, 10), (2, 20)] 3 30 (by decide)

/-! ## Transactions (spec §4.H; crate docs in `src/lib.rs` lines
99-110) -/

/-- Commands a transaction handle can send to the server. -/
inductive TxCmd
  | start
  | write (v : Nat)
  | commitCmd
  | rollbackCmd

/-- Server-side view: the committed database contents together with the
pending (uncommitted) contents of an open transaction, if any.  A
`write` inside a transaction only touches the pending copy; `COMMIT`
publishes it; `ROLLBACK` discards it. -/
def applyTxCmd : List Nat × Option (List Nat) → TxCmd → List Nat × Option (List Nat)
  | (db, none), .start => (db, some db)
  | (db, some p), .start => (db, some p)
  | (db, some p), .write v => (db, some (p ++ [v]))
  | (db, none), .write v => (db ++ [v], none)
  | (_, some p), .commitCmd => (p, none)
  | (db, none), .commitCmd => (db, none)
  | (db, some _), .rollbackCmd => (db, none)
  | (db, none), .rollbackCmd => (db, none)

/-- Folding a command list over the server state. -/
def applyTxCmds (s : List Nat × Option (List Nat)) (cs : List TxCmd) :
    List Nat × Option (List Nat) :=
  cs.foldl applyTxCmd s

/-- Modelled from the spec: the client-side `Transaction` handle
(`queryable/transaction`, not under `src/`) records whether `commit()`
or `rollback()` has been called. -/
structure Transaction where
  finished : Bool

/-- Modelled from the spec: `Transaction::commit` sends `COMMIT` and
marks the handle finished. -/
def Transaction.commitTx (_t : Transaction) : Transaction × List TxCmd :=
  (⟨true⟩, [TxCmd.commitCmd])

/-- Modelled from the spec: `Transaction::rollback` sends `ROLLBACK` and
marks the handle finished. -/
def Transaction.rollbackTx (_t : Transaction) : Transaction × List TxCmd :=
  (⟨true⟩, [TxCmd.rollbackCmd])

/-- Modelled from the spec: the drop path of a `Transaction` issues
`ROLLBACK` iff neither `commit()` nor `rollback()` has been called. -/
def Transaction.dropTx (t : Transaction) : List TxCmd :=
  if t.finished then [] else [TxCmd.rollbackCmd]

theorem applyTxCmds_writes (db p : List Nat) (ws : List Nat) :
    applyTxCmds (db, some p) (ws.map TxCmd.write) = (db, some (p ++ ws)) := by
  induction ws generalizing p with
  | nil => simp [applyTxCmds]
  | cons w ws ih =>
    simp only [List.map_cons, applyTxCmds, List.foldl_cons, applyTxCmd]
    rw [show List.foldl applyTxCmd = applyTxCmds from rfl, ih, List.append_assoc]
    rfl

/-- **C6**: dropping a `Transaction` handle on which neither `commit()`
nor `rollback()` was called issues `ROLLBACK`, so after a started
transaction and any sequence of writes inside it the next query observes
the pre-transaction database state; a handle on which `commit()` or
`rollback()` was called issues nothing on drop. -/
theorem transaction_drop (db ws : List Nat) (t : Transaction) :
    applyTxCmds
        (applyTxCmds (db, none) (TxCmd.start :: ws.map TxCmd.write))
        (Transaction.dropTx ⟨false⟩) = (db, none) ∧
    Transaction.dropTx (t.commitTx).1 = [] ∧
    Transaction.dropTx (t.rollbackTx).1 = [] := by
  refine ⟨?_, rfl, rfl⟩
  have hs : applyTxCmds (db, none) (TxCmd.start :: ws.map TxCmd.write) =
      (db, some (db ++ ws)) := by
    simp only [applyTxCmds, List.foldl_cons, applyTxCmd]
    rw [show List.foldl applyTxCmd = applyTxCmds from rfl, applyTxCmds_writes]
  rw [hs]
  rfl

/-- Witness for C6: writes 1, 2 inside a transaction on database `[0]`
vanish when the unfinished handle is dropped. -/
theorem transaction_drop_witness :
    applyTxCmds
        (applyTxCmds (([0] : List Nat), none)
          (TxCmd.start :: ([1, 2] : List Nat).map TxCmd.write))
        (Transaction.dropTx ⟨false⟩) = ([0], none) ∧
    Transaction.dropTx ((⟨false⟩ : Transaction).commitTx).1 = [] ∧
    Transaction.dropTx ((⟨false⟩ : Transaction).rollbackTx).1 = [] :=
  transaction_drop [0] [1, 2] ⟨false⟩

/-! ## LOCAL INFILE handler resolution (spec §4.H; crate docs in
`src/lib.rs` lines 163-205) -/

/-- The errors of the LOCAL INFILE path (`error` module, mirrored from
the re-export in `src/lib.rs`). -/
inductive LocalInfileError
  | NoHandler
  | TooLarge
  | Other

/-- How a LOCAL INFILE request (0xFB packet) was resolved. -/
inductive InfileResolution
  | localUsed (h : Nat)
  | globalUsed (h : Nat)
  | failed (e : LocalInfileError)

/-- Modelled from the spec: on a 0xFB packet the connection consults the
per-connection single-use handler first, then the global handler from
the options, and otherwise sends an empty packet and fails with
`LocalInfileError.NoHandler`.  Handlers are abstracted to `Nat` ids.
The result carries the resolution, the new contents of the
per-connection slot (consumed on use), and the packets written to the
server by the resolution step itself. -/
def handleInfileRequest (localH globalH : Option Nat) :
    InfileResolution × Option Nat × List (List Nat) :=
  match localH with
  | some h => (InfileResolution.localUsed h, none, [])
  | none =>
    match globalH with
    | some g => (InfileResolution.globalUsed g, none, [])
    | none => (InfileResolution.failed LocalInfileError.NoHandler, none, [[]])

/-- Modelled from the spec: `Conn::reset` clears the per-connection
handler slot. -/
def connResetInfileSlot (_slot : Option Nat) : Option Nat := none

/-- Modelled from the spec: returning the connection to the pool (the
`Drop` impl) clears the per-connection handler slot. -/
def connReturnInfileSlot (_slot : Option Nat) : Option Nat := none

/-- **C7**: a LOCAL INFILE request resolves to the per-connection
single-use handler when present (consuming it), otherwise to the global
handler from the options, and otherwise sends a single empty packet and
fails with `LocalInfileError.NoHandler`; reset and return-to-pool clear
the per-connection slot. -/
theorem local_infile_resolution (h g : Nat) (gOpt slot : Option Nat) :
    handleInfileRequest (some h) gOpt =
      (InfileResolution.localUsed h, none, []) ∧
    handleInfileRequest none (some g) =
      (InfileResolution.globalUsed g, none, []) ∧
    handleInfileRequest none none =
      (InfileResolution.failed LocalInfileError.NoHandler, none, [[]]) ∧
    connResetInfileSlot slot = none ∧
    connReturnInfileSlot slot = none :=
  ⟨rfl, rfl, rfl, rfl, rfl⟩

/-- Witness for C7 at concrete handler ids. -/
theorem local_infile_resolution_witness :
    handleInfileRequest (some 4) (some 9) =
      (InfileResolution.localUsed 4, none, []) ∧
    handleInfileRequest none (some 9) =
      (InfileResolution.globalUsed 9, none, []) ∧
    handleInfileRequest none none =
      (InfileResolution.failed LocalInfileError.NoHandler, none, [[]]) ∧
    connResetInfileSlot (some 4) = none ∧
    connReturnInfileSlot (some 4) = none :=
  local_infile_resolution 4 9 (some 9) (some 4)

/-! ## Pool wait queue (spec §4.I "Fairness", §5) -/

/-- The waiter bookkeeping: pending waiters in arrival order, the idle
count, and the ids already served, in service order. -/
structure WaitQueue where
  waiters : List Nat
  idleCount : Nat
  served : List Nat

/-- Modelled from the spec: a new acquirer that must wait is appended at
the tail of the FIFO waiter queue. -/
def enqueueWaiter (q : WaitQueue) (w : Nat) : WaitQueue :=
  { q with waiters := q.waiters ++ [w] }

/-- Modelled from the spec: when one connection becomes available it is
handed directly to the head waiter if any waiter exists; only an empty
waiter queue lets the connection go back to the idle queue. -/
def releaseOneConn (q : WaitQueue) : WaitQueue :=
  match q.waiters with
  | w :: rest => { q with waiters := rest, served := q.served ++ [w] }
  | [] => { q with idleCount := q.idleCount + 1 }

/-- `n` connections become available one at a time. -/
def releaseConns (q : WaitQueue) : Nat → WaitQueue
  | 0 => q
  | n + 1 => releaseConns (releaseOneConn q) n

theorem releaseConns_spec (ws : List Nat) (acc : List Nat) (i n : Nat) :
    (releaseConns ⟨ws, i, acc⟩ n).served = acc ++ ws.take n ∧
    (releaseConns ⟨ws, i, acc⟩ n).waiters = ws.drop n := by
  induction n generalizing ws acc i with
  | zero => simp [releaseConns]
  | succ n ih =>
    cases ws with
    | nil =>
      simpa [releaseConns, releaseOneConn] using ih [] acc (i + 1)
    | cons w rest =>
      have := ih rest (acc ++ [w]) i
      simpa [releaseConns, releaseOneConn, List.append_assoc] using this

/-- **C8**: waiters are served in FIFO order — with waiters queued in
arrival order `ws`, after `n` connections become available one at a time
the served ids are exactly the first `n` of `ws` in order (so a waiter
that began waiting strictly earlier is resumed earlier), the remaining
waiters are the rest of `ws`; enqueueing appends at the tail, and a
returned connection is handed directly to the head waiter, never added
to the idle queue while a waiter exists. -/
theorem wait_queue_fifo (ws : List Nat) (i n w : Nat)
    (hne : ws ≠ []) :
    (releaseConns ⟨ws, i, []⟩ n).served = ws.take n ∧
    (releaseConns ⟨ws, i, []⟩ n).waiters = ws.drop n ∧
    (enqueueWaiter ⟨ws, i, []⟩ w).waiters = ws ++ [w] ∧
    (releaseOneConn ⟨ws, i, []⟩).idleCount = i ∧
    (releaseOneConn ⟨ws, i, []⟩).served = [ws.head hne] := by
  obtain ⟨h1, h2⟩ := releaseConns_spec ws [] i n
  refine ⟨by simpa using h1, h2, rfl, ?_, ?_⟩ <;>
    cases ws with
    | nil => exact absurd rfl hne
    | cons x rest => simp [releaseOneConn]

/-- Witness for C8: three waiters, two connections released one at a
time — the first two waiters are served in order and the idle count is
untouched. -/
theorem wait_queue_fifo_witness :
    (releaseConns ⟨[1, 2, 3], 0, []⟩ 2).served = [1, 2] ∧
    (releaseConns ⟨[1, 2, 3], 0, []⟩ 2).waiters = [3] ∧
    (enqueueWaiter ⟨[1, 2, 3], 0, []⟩ 4).waiters = [1, 2, 3, 4] ∧
    (releaseOneConn ⟨[1, 2, 3], 0, []⟩).idleCount = 0 ∧
    (releaseOneConn ⟨[1, 2, 3], 0, []⟩).served =
      [([1, 2, 3] : List Nat).head (by decide)] :=
  wait_queue_fifo [1, 2, 3] 0 2 4 (by decide)

/-! ## Process-wide buffer pool (`src/lib.rs` lines 317-318:
`static BUFFER_POOL: once_cell::sync::Lazy<Arc<BufferPool>> =
once_cell::sync::Lazy::new(|| Default::default());`) -/

/-- The buffer pool configuration, abstracted; `mkDefault` plays the
role of `Default::default()`. -/
structure BufferPool where
  config : Nat
deriving DecidableEq

/-- The `Default::default()` buffer pool. -/
def BufferPool.mkDefault : BufferPool := ⟨0⟩

/-- Modelled from the spec: the state of a `once_cell::sync::Lazy` cell
(the `once_cell` crate is an external dependency): empty until first
use, then holding the single created value. -/
structure LazyCell where
  value : Option BufferPool

/-- Modelled from the spec: forcing the lazy cell.  On first use it runs
the constructor (`Default::default()`); afterwards it returns the stored
value unchanged, never running the constructor again. -/
def LazyCell.force (c : LazyCell) : BufferPool × LazyCell :=
  match c.value with
  | some v => (v, c)
  | none => (BufferPool.mkDefault, ⟨some BufferPool.mkDefault⟩)

/-- `n` acquisitions of the process-wide buffer pool, returning the list
of values obtained and the final cell state. -/
def acquireBufferPool : Nat → LazyCell → List BufferPool × LazyCell
  | 0, c => ([], c)
  | n + 1, c =>
    let (v, c') := c.force
    let (vs, c'') := acquireBufferPool n c'
    (v :: vs, c'')

theorem acquireBufferPool_filled (n : Nat) :
    acquireBufferPool n ⟨some BufferPool.mkDefault⟩ =
      (List.replicate n BufferPool.mkDefault, ⟨some BufferPool.mkDefault⟩) := by
  induction n with
  | zero => rfl
  | succ n ih =>
    simp [acquireBufferPool, LazyCell.force, ih, List.replicate_succ]

/-- **C9**: the buffer pool is a process-wide lazily-created singleton —
starting from the empty cell, every acquisition in any sequence yields
the same `BufferPool.mkDefault` value (it is created with its default
configuration), and once the cell is filled, forcing it returns the
stored value without creating another pool. -/
theorem buffer_pool_singleton (n : Nat) (v : BufferPool) :
    (acquireBufferPool n ⟨none⟩).1 = List.replicate n BufferPool.mkDefault ∧
    (∀ b ∈ (acquireBufferPool n ⟨none⟩).1, b = BufferPool.mkDefault) ∧
    LazyCell.force ⟨some v⟩ = (v, ⟨some v⟩) := by
  have hall : (acquireBufferPool n ⟨none⟩).1 =
      List.replicate n BufferPool.mkDefault := by
    cases n with
    | zero => rfl
    | succ n =>
      simp [acquireBufferPool, LazyCell.force, acquireBufferPool_filled,
        List.replicate_succ]
  refine ⟨hall, ?_, rfl⟩
  intro b hb
  rw [hall] at hb
  exact List.eq_of_mem_replicate hb

/-- Witness for C9: three acquisitions all return the default pool. -/
theorem buffer_pool_singleton_witness :
    (acquireBufferPool 3 ⟨none⟩).1 = List.replicate 3 BufferPool.mkDefault ∧
    (∀ b ∈ (acquireBufferPool 3 ⟨none⟩).1, b = BufferPool.mkDefault) ∧
    LazyCell.force ⟨some ⟨5⟩⟩ = (⟨5⟩, ⟨some ⟨5⟩⟩) :=
  buffer_pool_singleton 3 ⟨5⟩

/-! ## `test_misc` environment flags (`src/lib.rs` lines 502-508) -/

/-- The process environment, as an association list of variable names to
values; `envVar` models `std::env::var` (`none` for an unset
variable). -/
def envVar (env : List (String × String)) (k : String) : Option String :=
  (env.find? (fun e => e.1 == k)).map Prod.snd

/-- `test_misc::test_compression`:
`["true", "1"].contains(&&*env::var("COMPRESS").unwrap_or_default())`. -/
def test_compression (env : List (String × String)) : Bool :=
  (["true", "1"] : List String).contains ((envVar env "COMPRESS").getD "")

/-- `test_misc::test_ssl`:
`["true", "1"].contains(&&*env::var("SSL").unwrap_or_default())`. -/
def test_ssl (env : List (String × String)) : Bool :=
  (["true", "1"] : List String).contains ((envVar env "SSL").getD "")

theorem contains_true_one (o : Option String) :
    (["true", "1"] : List String).contains (o.getD "") = true ↔
      (o = some "true" ∨ o = some "1") := by
  cases o with
  | none => decide
  | some s =>
    by_cases h1 : s = "true"
    · subst h1; decide
    · by_cases h2 : s = "1"
      · subst h2; decide
      · simp [List.contains_cons, beq_iff_eq, h1, h2]

/-- **C10**: `test_misc::test_compression` (resp. `test_misc::test_ssl`)
returns `true` iff the `COMPRESS` (resp. `SSL`) environment variable is
set to exactly the string `"true"` or exactly `"1"`; any other value,
`"TRUE"`, `"yes"` or an unset variable included, yields `false`. -/
theorem test_env_flags (env : List (String × String)) :
    (test_compression env = true ↔
      (envVar env "COMPRESS" = some "true" ∨
        envVar env "COMPRESS" = some "1")) ∧
    (test_ssl env = true ↔
      (envVar env "SSL" = some "true" ∨ envVar env "SSL" = some "1")) :=
  ⟨contains_true_one (envVar env "COMPRESS"),
    contains_true_one (envVar env "SSL")⟩

/-- Witness for C10: with `COMPRESS=TRUE` and `SSL=1` in the
environment, compression is off and SSL is on. -/
theorem test_env_flags_witness :
    (test_compression [("COMPRESS", "TRUE"), ("SSL", "1")] = true ↔
      (envVar [("COMPRESS", "TRUE"), ("SSL", "1")] "COMPRESS" = some "true" ∨
        envVar [("COMPRESS", "TRUE"), ("SSL", "1")] "COMPRESS" = some "1")) ∧
    (test_ssl [("COMPRESS", "TRUE"), ("SSL", "1")] = true ↔
      (envVar [("COMPRESS", "TRUE"), ("SSL", "1")] "SSL" = some "true" ∨
        envVar [("COMPRESS", "TRUE"), ("SSL", "1")] "SSL" = some "1")) :=
  test_env_flags [("COMPRESS", "TRUE"), ("SSL", "1")]

end MysqlAsync
